import Mathlib

/-!
Shallow embedding, over the real numbers, of the protein-diffusion-DiT
repository (src/diffusion.py and src/architecture.py), together with
theorems settling the specification claims about it.

Tensors are modelled elementwise (all the tensor operations involved are
elementwise or small contractions), floating point numbers by real numbers,
and random draws by explicit value parameters.
-/

noncomputable section

namespace ProteinDiffusion

/-! ## Embedding of src/diffusion.py -/

/-- Torch clamp: restrict a value to the closed interval from lo to hi,
computed as min (max x lo) hi. -/
def clamp (x lo hi : ℝ) : ℝ := min (max x lo) hi

/-- Scaler warping of the progress value t applied by Diffuzz._alpha_cumprod
(src/diffusion.py lines 60-63): if scaler > 1 then 1 - (1-t)^scaler, if
scaler < 1 then t^scaler, otherwise t unchanged. -/
def scalerAdjust (scaler : ℤ) (t : ℝ) : ℝ :=
  if 1 < scaler then 1 - (1 - t) ^ scaler
  else if scaler < 1 then t ^ scaler
  else t

/-- Normalisation constant self._init_alpha_cumprod of Diffuzz
(src/diffusion.py line 51): cos(s / (1+s) * pi * 0.5) ** 2. -/
def initAlphaCumprod (s : ℝ) : ℝ :=
  Real.cos (s / (1 + s) * Real.pi * 0.5) ^ 2

/-- Unclamped cosine-schedule value of Diffuzz._alpha_cumprod
(src/diffusion.py line 64): cos((t' + s) / (1+s) * pi * 0.5).clamp(0,1) ** 2
divided by the normalisation constant, where t' is the scaler-adjusted t. -/
def alphaRaw (s : ℝ) (scaler : ℤ) (t : ℝ) : ℝ :=
  clamp (Real.cos ((scalerAdjust scaler t + s) / (1 + s) * Real.pi * 0.5)) 0 1 ^ 2
    / initAlphaCumprod s

/-- Continuous (non-cached) branch of Diffuzz._alpha_cumprod
(src/diffusion.py lines 58-65): the raw cosine-schedule value clamped to
the configured clamp range. -/
def alphaCumprodCont (s : ℝ) (scaler : ℤ) (lo hi t : ℝ) : ℝ :=
  clamp (alphaRaw s scaler t) lo hi

/-- Diffuzz._alpha_cumprod at the constructor defaults
(s = 0.008, scaler = 1, clamp_range = (0.0001, 0.9999)). -/
def alphaCumprodDefault (t : ℝ) : ℝ :=
  alphaCumprodCont 0.008 1 0.0001 0.9999 t

/-- Element i of torch.linspace(0, 1, K): i / (K - 1). -/
def linspace01 (K : ℕ) (i : Fin K) : ℝ := (i : ℝ) / ((K : ℝ) - 1)

/-- Cached schedule built by the Diffuzz constructor when cache_steps = K
(src/diffusion.py lines 55-56): _alpha_cumprod evaluated, at the default
parameters, on the K evenly spaced points of linspace(0, 1, K). -/
def cachedSteps (K : ℕ) : Fin K → ℝ :=
  fun i => alphaCumprodDefault (linspace01 K i)

/-- Python tensor .long() conversion: truncation of a real number toward
zero (floor for nonnegative values, ceiling for negative ones). -/
def pyLong (x : ℝ) : ℤ := if 0 ≤ x then ⌊x⌋ else ⌈x⌉

/-- In-range integer indexing of a length-K vector, as used by
cached_steps[...] on src/diffusion.py line 67; an out-of-range index is an
indexing error, modelled as none. -/
def tensorGet {K : ℕ} (v : Fin K → ℝ) (idx : ℤ) : Option ℝ :=
  if h : 0 ≤ idx ∧ idx < (K : ℤ) then
    some (v ⟨idx.toNat, by omega⟩)
  else none

/-- Cached branch of Diffuzz._alpha_cumprod (src/diffusion.py line 67):
index the precomputed table at t.mul(K - 1).long(). -/
def alphaCumprodCached (K : ℕ) (t : ℝ) : Option ℝ :=
  tensorGet (cachedSteps K) (pyLong (t * ((K : ℝ) - 1)))

/-- Module-level imports of src/diffusion.py (line 1): only torch. -/
def diffusionModuleImports : List String := ["torch"]

/-- Progress schedule construction of Diffuzz.sample (src/diffusion.py
lines 81-89), per schedule entry, with Python name resolution modelled for
the math module: the linear branch is torch.linspace(t_start, t_end,
timesteps+1); the ays branch evaluates math.atan, which raises a NameError
unless the math module is imported in src/diffusion.py; any other steps
string raises NotImplementedError. -/
def buildRRange (steps : String) (tstart tend : ℝ) (timesteps : ℕ) :
    Except String (List ℝ) :=
  if steps = "linear" then
    Except.ok ((List.range (timesteps + 1)).map fun i =>
      tstart + (tend - tstart) * (i : ℝ) / (timesteps : ℝ))
  else if steps = "ays" then
    if "math" ∈ diffusionModuleImports then
      Except.ok ((List.range (timesteps + 1)).map fun i =>
        Real.tan ((1 - (i : ℝ) / (timesteps : ℝ)) * Real.arctan tstart
          + ((i : ℝ) / (timesteps : ℝ)) * Real.arctan tend))
    else Except.error "NameError: name math is not defined"
  else Except.error "NotImplementedError"

/-- Diffuzz.diffuse at the default schedule (src/diffusion.py lines 69-73),
elementwise, with the noise draw passed explicitly: returns
(sqrt(alpha_cumprod(t)) * x + sqrt(1 - alpha_cumprod(t)) * noise, noise). -/
def diffuse (x t noise : ℝ) : ℝ × ℝ :=
  (Real.sqrt (alphaCumprodDefault t) * x
    + Real.sqrt (1 - alphaCumprodDefault t) * noise, noise)

/-- Internal clean-sample reconstruction of DDIMSampler.step
(src/diffusion.py line 36): x0 = (x - sqrt(1 - alpha_cumprod) * noise)
/ sqrt(alpha_cumprod). -/
def ddimX0 (x t noise : ℝ) : ℝ :=
  (x - Real.sqrt (1 - alphaCumprodDefault t) * noise)
    / Real.sqrt (alphaCumprodDefault t)

/-- DDIMSampler.step (src/diffusion.py lines 32-38), elementwise:
sqrt(alpha_cumprod_prev) * x0 + sqrt(1 - alpha_cumprod_prev) * noise. -/
def ddimStep (x t tprev noise : ℝ) : ℝ :=
  Real.sqrt (alphaCumprodDefault tprev) * ddimX0 x t noise
    + Real.sqrt (1 - alphaCumprodDefault tprev) * noise

/-- DDPMSampler.step (src/diffusion.py lines 22-29), elementwise, with the
internally drawn fresh standard normal noise passed explicitly as fresh:
mu + std * fresh * (t_prev != 0). -/
def ddpmStep (x t tprev noise fresh : ℝ) : ℝ :=
  Real.sqrt (1.0 / (alphaCumprodDefault t / alphaCumprodDefault tprev))
      * (x - (1 - alphaCumprodDefault t / alphaCumprodDefault tprev) * noise
          / Real.sqrt (1 - alphaCumprodDefault t))
    + Real.sqrt ((1 - alphaCumprodDefault t / alphaCumprodDefault tprev)
          * (1 - alphaCumprodDefault tprev) / (1 - alphaCumprodDefault t))
        * fresh * (if tprev ≠ 0 then 1 else 0)

/-- Choice of the initial working sample in Diffuzz.sample
(src/diffusion.py line 101): sampler.init_x (a fresh standard normal draw,
passed explicitly as fresh) if x_init is None or mask is not None,
otherwise a clone of x_init. -/
def initSample (mask : Option ℝ) (xinit : Option ℝ) (fresh : ℝ) : ℝ :=
  if xinit.isNone || mask.isSome then fresh else xinit.getD fresh

/-- One iteration of the Diffuzz.sample loop in inpainting mode with the
DDIM sampler (src/diffusion.py lines 103-111), elementwise at a position
whose mask value is m: re-diffuse the seed x_init to the current progress t
with the drawn noise noiseD, blend x * mask + x_renoised * (1 - mask),
query the model on the blended sample, then apply the sampler step toward
tnext. Returns (blended sample, post-step sample). -/
def inpaintIterDDIM (x xinit m t tnext noiseD : ℝ) (model : ℝ → ℝ → ℝ) :
    ℝ × ℝ :=
  let xb := x * m + (diffuse xinit t noiseD).1 * (1 - m)
  (xb, ddimStep xb t tnext (model xb t))

/-! ## Embedding of src/architecture.py -/

/-- Logistic sigmoid, the torch .sigmoid() function. -/
def sigmoid (x : ℝ) : ℝ := 1 / (1 + Real.exp (-x))

/-- SiLU activation (nn.SiLU): x * sigmoid(x). -/
def silu (x : ℝ) : ℝ := x * sigmoid x

/-- GELU activation with the tanh approximation, nn.GELU(approximate="tanh"):
0.5 * x * (1 + tanh(sqrt(2/pi) * (x + 0.044715 * x^3))). -/
def geluTanh (x : ℝ) : ℝ :=
  0.5 * x * (1 + Real.tanh (Real.sqrt (2 / Real.pi) * (x + 0.044715 * x ^ 3)))

/-- Affine layer nn.Linear applied to one feature vector:
output j = sum_i w j i * x i + b j. -/
def linearMap {dout din : ℕ} (w : Fin dout → Fin din → ℝ) (b : Fin dout → ℝ)
    (x : Fin din → ℝ) : Fin dout → ℝ :=
  fun j => (∑ i, w j i * x i) + b j

/-- nn.LayerNorm with elementwise_affine=False over the feature dimension:
subtract the mean, divide by sqrt(biased variance + eps). -/
def layerNorm {D : ℕ} (eps : ℝ) (x : Fin D → ℝ) : Fin D → ℝ :=
  fun j => (x j - (∑ i, x i) / (D : ℝ))
    / Real.sqrt ((∑ i, (x i - (∑ k, x k) / (D : ℝ)) ^ 2) / (D : ℝ) + eps)

/-- The modulate helper (src/architecture.py lines 44-45) on one sequence
position: x * (1 + scale) + shift. -/
def modulateRow {D : ℕ} (x shift scale : Fin D → ℝ) : Fin D → ℝ :=
  fun j => x j * (1 + scale j) + shift j

/-- Chunk c of the even chunking of a vector of length n*D into n vectors
of length D (torch .chunk along the feature dimension). -/
def chunkAt {n D : ℕ} (y : Fin (n * D) → ℝ) (c : Fin n) : Fin D → ℝ :=
  fun j => y ⟨c.val * D + j.val, by
    have hj : j.val < D := j.isLt
    have h2 : (c.val + 1) * D ≤ n * D := Nat.mul_le_mul_right D c.isLt
    have h3 : c.val * D + j.val < (c.val + 1) * D := by
      rw [Nat.add_mul]
      omega
    omega⟩

/-- Channel index of dimension d of head h after the einops rearrange
"batch seq_len (n_heads d_head) -> batch n_heads seq_len d_head". -/
def headIndex {H dh : ℕ} (h : Fin H) (d : Fin dh) : Fin (H * dh) :=
  ⟨h.val * dh + d.val, by
    have hd : d.val < dh := d.isLt
    have h2 : (h.val + 1) * dh ≤ H * dh := Nat.mul_le_mul_right dh h.isLt
    have h3 : h.val * dh + d.val < (h.val + 1) * dh := by
      rw [Nat.add_mul]
      omega
    omega⟩

/-- Index of the query slice of the packed qkv output
(torch .split(d_model, dim=2), first third). -/
def qIdx {D : ℕ} (c : Fin D) : Fin (3 * D) :=
  ⟨c.val, by have := c.isLt; omega⟩

/-- Index of the key slice of the packed qkv output (second third). -/
def kIdx {D : ℕ} (c : Fin D) : Fin (3 * D) :=
  ⟨D + c.val, by have := c.isLt; omega⟩

/-- Index of the value slice of the packed qkv output (last third). -/
def vIdx {D : ℕ} (c : Fin D) : Fin (3 * D) :=
  ⟨2 * D + c.val, by have := c.isLt; omega⟩

/-- Softmax attention weights for one query row, with the boolean-mask
semantics of torch scaled_dot_product_attention: a position whose mask
entry is false receives weight zero and is excluded from the
normalisation. -/
def sdpaWeights {L : ℕ} (scores : Fin L → ℝ) (mask : Fin L → Bool) :
    Fin L → ℝ :=
  fun j => (if mask j then Real.exp (scores j) else 0)
    / ∑ k, (if mask k then Real.exp (scores k) else 0)

/-- torch.nn.functional.scaled_dot_product_attention for a single head:
scores are scaled dot products q.k/sqrt(d_head); a None mask means full
(unmasked) attention. -/
def sdpaHead {L dh : ℕ} (q k v : Fin L → Fin dh → ℝ)
    (mask : Option (Fin L → Fin L → Bool)) : Fin L → Fin dh → ℝ :=
  let m : Fin L → Fin L → Bool := fun i j =>
    match mask with
    | none => true
    | some mm => mm i j
  fun i d => ∑ j,
    sdpaWeights (fun jj => (∑ c, q i c * k jj c) / Real.sqrt (dh : ℝ)) (m i) j
      * v j d

/-- Weights of the Attention module (src/architecture.py lines 120-134):
packed qkv projection and output projection, with d_model = n_heads *
d_head as required by the einops rearrange. -/
structure AttnParams (H dh : ℕ) where
  qkv_w : Fin (3 * (H * dh)) → Fin (H * dh) → ℝ
  qkv_b : Fin (3 * (H * dh)) → ℝ
  proj_w : Fin (H * dh) → Fin (H * dh) → ℝ
  proj_b : Fin (H * dh) → ℝ

/-- Merge of the per-head outputs back into channels, the einops rearrange
"batch n_heads seq_len d_head -> batch seq_len (n_heads d_head)". -/
def mergeHeads {H dh L : ℕ} (y : Fin H → Fin L → Fin dh → ℝ) :
    Fin L → Fin (H * dh) → ℝ :=
  fun i c =>
    if hdh : 0 < dh then
      y ⟨c.val / dh, (Nat.div_lt_iff_lt_mul hdh).mpr c.isLt⟩ i
        ⟨c.val % dh, Nat.mod_lt _ hdh⟩
    else 0

/-- Attention.forward (src/architecture.py lines 136-154). The attn_mask
argument is accepted, but the call on line 147 passes attn_mask=None to
scaled_dot_product_attention, so the supplied mask is ignored; dropout is
0.0 (the configured default), so both dropout applications are the
identity. -/
def attentionForward {H dh L : ℕ} (p : AttnParams H dh)
    (x : Fin L → Fin (H * dh) → ℝ)
    (attn_mask : Option (Fin L → Fin L → Bool)) : Fin L → Fin (H * dh) → ℝ :=
  let y := fun i => linearMap p.qkv_w p.qkv_b (x i)
  let q := fun (i : Fin L) (c : Fin (H * dh)) => y i (qIdx c)
  let k := fun (i : Fin L) (c : Fin (H * dh)) => y i (kIdx c)
  let v := fun (i : Fin L) (c : Fin (H * dh)) => y i (vIdx c)
  let headsOut := fun (h : Fin H) =>
    sdpaHead (fun i d => q i (headIndex h d)) (fun i d => k i (headIndex h d))
      (fun i d => v i (headIndex h d)) none
  fun i => linearMap p.proj_w p.proj_b (mergeHeads headsOut i)

/-- Weights of one DiTBlock (src/architecture.py lines 175-190): attention,
the adaLN modulation linear producing the six modulation vectors, and the
two MLP linears with hidden width R * d_model (R = mlp_ratio). -/
structure BlockParams (H dh R : ℕ) where
  attn : AttnParams H dh
  ada_w : Fin (6 * (H * dh)) → Fin (H * dh) → ℝ
  ada_b : Fin (6 * (H * dh)) → ℝ
  fc_w : Fin (R * (H * dh)) → Fin (H * dh) → ℝ
  fc_b : Fin (R * (H * dh)) → ℝ
  cproj_w : Fin (H * dh) → Fin (R * (H * dh)) → ℝ
  cproj_b : Fin (H * dh) → ℝ

/-- MLP.forward (src/architecture.py lines 157-172): c_fc, tanh GELU,
c_proj; dropout is 0.0 so it is the identity. -/
def mlpForward {D R : ℕ} (fc_w : Fin (R * D) → Fin D → ℝ)
    (fc_b : Fin (R * D) → ℝ) (cproj_w : Fin D → Fin (R * D) → ℝ)
    (cproj_b : Fin D → ℝ) (x : Fin D → ℝ) : Fin D → ℝ :=
  linearMap cproj_w cproj_b (fun r => geluTanh (linearMap fc_w fc_b x r))

/-- DiTBlock.forward (src/architecture.py lines 192-197): the adaLN
modulation of the timestep embedding yields shift/scale/gate for the
attention branch and the MLP branch; each branch is gated and added to the
residual stream. -/
def blockForward {H dh R L : ℕ} (lnEps : ℝ) (p : BlockParams H dh R)
    (x : Fin L → Fin (H * dh) → ℝ) (temb : Fin (H * dh) → ℝ)
    (attn_mask : Option (Fin L → Fin L → Bool)) : Fin L → Fin (H * dh) → ℝ :=
  let ada := linearMap p.ada_w p.ada_b (fun j => silu (temb j))
  let shiftMsa := chunkAt ada 0
  let scaleMsa := chunkAt ada 1
  let gateMsa := chunkAt ada 2
  let shiftMlp := chunkAt ada 3
  let scaleMlp := chunkAt ada 4
  let gateMlp := chunkAt ada 5
  let attnIn := fun i => modulateRow (layerNorm lnEps (x i)) shiftMsa scaleMsa
  let attnOut := attentionForward p.attn attnIn attn_mask
  let x1 := fun i j => x i j + gateMsa j * attnOut i j
  let mlpIn := fun i => modulateRow (layerNorm lnEps (x1 i)) shiftMlp scaleMlp
  let mlpOut := fun i => mlpForward p.fc_w p.fc_b p.cproj_w p.cproj_b (mlpIn i)
  fun i j => x1 i j + gateMlp j * mlpOut i j

/-- TimestepEmbedder.timestep_embedding (src/architecture.py lines 65-84):
concatenation of cos(t * freqs) and sin(t * freqs) with
freqs d = exp(-log(10000) * d / half), zero-padded if the dimension is
odd. -/
def timestepEmbedding (F : ℕ) (t : ℝ) : Fin F → ℝ :=
  fun d =>
    if d.val < F / 2 then
      Real.cos (t * Real.exp (-(Real.log 10000) * (d.val : ℝ) / ((F / 2 : ℕ) : ℝ)))
    else if d.val < 2 * (F / 2) then
      Real.sin (t * Real.exp
        (-(Real.log 10000) * ((d.val - F / 2 : ℕ) : ℝ) / ((F / 2 : ℕ) : ℝ)))
    else 0

/-- TimestepEmbedder.forward (src/architecture.py lines 86-89): the
sinusoidal embedding followed by Linear, SiLU, Linear. -/
def tEmbedderForward {F D : ℕ} (w1 : Fin D → Fin F → ℝ) (b1 : Fin D → ℝ)
    (w2 : Fin D → Fin D → ℝ) (b2 : Fin D → ℝ) (t : ℝ) : Fin D → ℝ :=
  linearMap w2 b2 (fun j => silu (linearMap w1 b1 (timestepEmbedding F t) j))

/-- Weights of the DiT model (src/architecture.py lines 227-248) over
dimensions din = input_dim, d_model = H * dh, R = mlp_ratio, L = seq_len,
F = frequency_embedding_size: input embedder, positional embedding,
timestep embedder MLP, the blocks, and the final layer (adaLN modulation,
mean head, and sigma head - the latter only used when learn_sigma). -/
structure DiTParams (din H dh R L F : ℕ) where
  xemb_w : Fin (H * dh) → Fin din → ℝ
  xemb_b : Fin (H * dh) → ℝ
  pos : Fin L → Fin (H * dh) → ℝ
  t1_w : Fin (H * dh) → Fin F → ℝ
  t1_b : Fin (H * dh) → ℝ
  t2_w : Fin (H * dh) → Fin (H * dh) → ℝ
  t2_b : Fin (H * dh) → ℝ
  blocks : List (BlockParams H dh R)
  fada_w : Fin (2 * (H * dh)) → Fin (H * dh) → ℝ
  fada_b : Fin (2 * (H * dh)) → ℝ
  mean_w : Fin din → Fin (H * dh) → ℝ
  mean_b : Fin din → ℝ
  sigma_w : Fin din → Fin (H * dh) → ℝ
  sigma_b : Fin din → ℝ

/-- Pre-block residual stream of DiT.forward (src/architecture.py line
304): x_embedder(x) + pos_embed. -/
def ditEmbed {din H dh R L F : ℕ} (p : DiTParams din H dh R L F)
    (x : Fin L → Fin din → ℝ) : Fin L → Fin (H * dh) → ℝ :=
  fun i j => linearMap p.xemb_w p.xemb_b (x i) j + p.pos i j

/-- Residual stream after all DiT blocks (src/architecture.py lines
306-307). -/
def ditStream {din H dh R L F : ℕ} (lnEps : ℝ) (p : DiTParams din H dh R L F)
    (x : Fin L → Fin din → ℝ) (t : ℝ)
    (attn_mask : Option (Fin L → Fin L → Bool)) : Fin L → Fin (H * dh) → ℝ :=
  p.blocks.foldl
    (fun acc bp => blockForward lnEps bp acc
      (tEmbedderForward p.t1_w p.t1_b p.t2_w p.t2_b t) attn_mask)
    (ditEmbed p x)

/-- FinalLayer modulated activations (src/architecture.py lines 217-219):
modulate(norm_final(x), shift, scale) with shift and scale from the final
adaLN modulation of the timestep embedding; norm_final uses eps = 1e-6. -/
def finalLayerModulated {din H dh R L F : ℕ} (p : DiTParams din H dh R L F)
    (x : Fin L → Fin (H * dh) → ℝ) (temb : Fin (H * dh) → ℝ) :
    Fin L → Fin (H * dh) → ℝ :=
  let ada := linearMap p.fada_w p.fada_b (fun j => silu (temb j))
  fun i => modulateRow (layerNorm 1e-6 (x i)) (chunkAt ada 0) (chunkAt ada 1)

/-- The two FinalLayer heads of DiT.forward (src/architecture.py lines
296-312): a = mean_linear(xf), raw sigma = sigma_linear(xf), both applied
to the final-layer modulated activations of the post-block stream. -/
def ditHeads {din H dh R L F : ℕ} (lnEps : ℝ) (p : DiTParams din H dh R L F)
    (x : Fin L → Fin din → ℝ) (t : ℝ)
    (attn_mask : Option (Fin L → Fin L → Bool)) :
    (Fin L → Fin din → ℝ) × (Fin L → Fin din → ℝ) :=
  let temb := tEmbedderForward p.t1_w p.t1_b p.t2_w p.t2_b t
  let xf := finalLayerModulated p (ditStream lnEps p x t attn_mask) temb
  (fun i => linearMap p.mean_w p.mean_b (xf i),
   fun i => linearMap p.sigma_w p.sigma_b (xf i))

/-- DiT.forward with learn_sigma = False (src/architecture.py lines
317-319): return x_in - a. -/
def ditForwardNoSigma {din H dh R L F : ℕ} (lnEps : ℝ)
    (p : DiTParams din H dh R L F) (x : Fin L → Fin din → ℝ) (t : ℝ)
    (attn_mask : Option (Fin L → Fin L → Bool)) : Fin L → Fin din → ℝ :=
  fun i j => x i j - (ditHeads lnEps p x t attn_mask).1 i j

/-- DiT.forward with learn_sigma = True (src/architecture.py lines
311-315): b = sigmoid(raw sigma) * (1 - eps*2) + eps, return (x_in - a) / b
with eps defaulting to 1e-3. -/
def ditForwardSigma {din H dh R L F : ℕ} (eps lnEps : ℝ)
    (p : DiTParams din H dh R L F) (x : Fin L → Fin din → ℝ) (t : ℝ)
    (attn_mask : Option (Fin L → Fin L → Bool)) : Fin L → Fin din → ℝ :=
  fun i j => (x i j - (ditHeads lnEps p x t attn_mask).1 i j)
    / (sigmoid ((ditHeads lnEps p x t attn_mask).2 i j) * (1 - eps * 2) + eps)

/-- Zero initialisation of one DiT block performed by
DiT.initialize_weights (src/architecture.py lines 283-286): the final
linear of the adaLN modulation has zero weight and bias. -/
def BlockZeroInit {H dh R : ℕ} (bp : BlockParams H dh R) : Prop :=
  (∀ c j, bp.ada_w c j = 0) ∧ ∀ c, bp.ada_b c = 0

/-- Zero initialisation performed by DiT.initialize_weights
(src/architecture.py lines 283-293): every block's adaLN modulation output
layer, the final layer's adaLN modulation output layer, and the mean head
are all zero; all other weights (including the sigma head) are
unconstrained. -/
def DiTZeroInit {din H dh R L F : ℕ} (p : DiTParams din H dh R L F) : Prop :=
  (∀ bp ∈ p.blocks, BlockZeroInit bp)
    ∧ (∀ c j, p.fada_w c j = 0) ∧ (∀ c, p.fada_b c = 0)
    ∧ (∀ c j, p.mean_w c j = 0) ∧ (∀ c, p.mean_b c = 0)

/-- Attention weights with zero everywhere (used for concrete instances). -/
def zeroAttn : AttnParams 1 1 :=
  ⟨fun _ _ => 0, fun _ => 0, fun _ _ => 0, fun _ => 0⟩

/-- One DiT block with all weights zero (a valid outcome of
initialize_weights: the zeroed layers are forced to zero and zero lies in
the support of the xavier/normal initialisers of the others). -/
def zeroBlock : BlockParams 1 1 1 :=
  ⟨zeroAttn, fun _ _ => 0, fun _ => 0, fun _ _ => 0, fun _ => 0,
    fun _ _ => 0, fun _ => 0⟩

/-- DiT weights, at input_dim = d_model = 1, one head of dimension 1,
mlp_ratio = 1, seq_len = 1, frequency_embedding_size = 2, one block, with
every weight zero. -/
def zeroDiT : DiTParams 1 1 1 1 1 2 :=
  ⟨fun _ _ => 0, fun _ => 0, fun _ _ => 0, fun _ _ => 0, fun _ => 0,
    fun _ _ => 0, fun _ => 0, [zeroBlock], fun _ _ => 0, fun _ => 0,
    fun _ _ => 0, fun _ => 0, fun _ _ => 0, fun _ => 0⟩

/-- Constant-one input sample of shape 1 x 1. -/
def onesInput : Fin 1 → Fin 1 → ℝ := fun _ _ => 1

/-- Attention weights at d_model = 1 (one head of dimension 1) for which
the query projection is zero, the value projection copies the input, and
the output projection is the identity. -/
def probeAttn : AttnParams 1 1 :=
  ⟨fun c _ => if c.val = 2 then 1 else 0, fun _ => 0, fun _ _ => 1,
    fun _ => 0⟩

/-- Two-position input that is zero everywhere. -/
def xBothZero : Fin 2 → Fin (1 * 1) → ℝ := fun _ _ => 0

/-- Two-position input that is zero at position 0 and 2 at position 1; it
agrees with xBothZero on position 0. -/
def xBumpAtOne : Fin 2 → Fin (1 * 1) → ℝ := fun i _ => if i.val = 1 then 2 else 0

/-- Attention mask marking only position 0 as valid (position 1 is beyond
the sample's valid residue count), in the format built by
create_attn_masks in src/data.py lines 162-179: rows kept, columns beyond
num_res zeroed. -/
def validFirstMask : Fin 2 → Fin 2 → Bool := fun _ j => j.val == 0

/-! ## Basic lemmas about clamp and the default schedule -/

theorem clamp_le_hi (x lo hi : ℝ) : clamp x lo hi ≤ hi :=
  min_le_right _ _

theorem lo_le_clamp {lo hi : ℝ} (x : ℝ) (h : lo ≤ hi) : lo ≤ clamp x lo hi :=
  le_min (le_max_right _ _) h

theorem clamp_eq_lo {x lo hi : ℝ} (h1 : x ≤ lo) (h2 : lo ≤ hi) :
    clamp x lo hi = lo := by
  unfold clamp
  rw [max_eq_right h1, min_eq_left h2]

theorem clamp_eq_self {x lo hi : ℝ} (h1 : lo ≤ x) (h2 : x ≤ hi) :
    clamp x lo hi = x := by
  unfold clamp
  rw [max_eq_left h1, min_eq_left h2]

theorem clamp_mono {x y : ℝ} (lo hi : ℝ) (h : x ≤ y) :
    clamp x lo hi ≤ clamp y lo hi :=
  min_le_min (max_le_max h le_rfl) le_rfl

theorem scalerAdjust_one (t : ℝ) : scalerAdjust 1 t = t := by
  simp [scalerAdjust]

theorem alphaCumprodDefault_mem (t : ℝ) :
    0.0001 ≤ alphaCumprodDefault t ∧ alphaCumprodDefault t ≤ 0.9999 :=
  ⟨lo_le_clamp _ (by norm_num), clamp_le_hi _ _ _⟩

theorem alphaCumprodDefault_pos (t : ℝ) : 0 < alphaCumprodDefault t :=
  lt_of_lt_of_le (by norm_num) (alphaCumprodDefault_mem t).1

theorem alphaCumprodDefault_lt_one (t : ℝ) : alphaCumprodDefault t < 1 :=
  lt_of_le_of_lt (alphaCumprodDefault_mem t).2 (by norm_num)

theorem sqrt_alphaCumprodDefault_pos (t : ℝ) :
    0 < Real.sqrt (alphaCumprodDefault t) :=
  Real.sqrt_pos.mpr (alphaCumprodDefault_pos t)

/-! ## Claim theorems on the diffusion module: the easy group -/

/-- C4: for every t in the unit interval, the continuously evaluated
default schedule value lies within the configured clamp range
[0.0001, 0.9999], hence strictly inside (0,1), and each downstream divisor
(sqrt of alpha_cumprod, 1 - alpha_cumprod, and alpha_cumprod itself as the
previous-step value) is nonzero. -/
theorem c4_alpha_clamped_no_zero_divisor (t : ℝ) (h0 : 0 ≤ t) (h1 : t ≤ 1) :
    (0.0001 ≤ alphaCumprodDefault t ∧ alphaCumprodDefault t ≤ 0.9999)
      ∧ 0 < alphaCumprodDefault t ∧ alphaCumprodDefault t < 1
      ∧ Real.sqrt (alphaCumprodDefault t) ≠ 0
      ∧ 1 - alphaCumprodDefault t ≠ 0
      ∧ alphaCumprodDefault t ≠ 0 := by
  refine ⟨alphaCumprodDefault_mem t, alphaCumprodDefault_pos t,
    alphaCumprodDefault_lt_one t, ne_of_gt (sqrt_alphaCumprodDefault_pos t),
    ?_, ne_of_gt (alphaCumprodDefault_pos t)⟩
  have := alphaCumprodDefault_lt_one t
  intro hcontra
  nlinarith

/-- Witness for C4 at the boundary point t = 1. -/
theorem c4_alpha_clamped_no_zero_divisor_witness :
    (0.0001 ≤ alphaCumprodDefault 1 ∧ alphaCumprodDefault 1 ≤ 0.9999)
      ∧ 0 < alphaCumprodDefault 1 ∧ alphaCumprodDefault 1 < 1
      ∧ Real.sqrt (alphaCumprodDefault 1) ≠ 0
      ∧ 1 - alphaCumprodDefault 1 ≠ 0
      ∧ alphaCumprodDefault 1 ≠ 0 :=
  c4_alpha_clamped_no_zero_divisor 1 (by norm_num) (by norm_num)

/-- C8: round-trip identity. Diffusing a clean sample x to progress t with
a given noise and then applying the deterministic (DDIM) sampler's internal
clean-sample reconstruction with the same noise and t recovers x exactly. -/
theorem c8_diffuse_ddim_roundtrip (x noise t : ℝ) :
    ddimX0 (diffuse x t noise).1 t noise = x := by
  unfold ddimX0 diffuse
  have hs : Real.sqrt (alphaCumprodDefault t) ≠ 0 :=
    ne_of_gt (sqrt_alphaCumprodDefault_pos t)
  rw [add_sub_cancel_right, mul_comm, mul_div_assoc, div_self hs, mul_one]

/-- C9: at a terminal step (t_prev = 0) the ancestral DDPM sampler step is
independent of the internally drawn fresh noise: two invocations with
identical arguments but different fresh draws coincide. -/
theorem c9_ddpm_terminal_deterministic (x t tprev noise f1 f2 : ℝ)
    (h : tprev = 0) :
    ddpmStep x t tprev noise f1 = ddpmStep x t tprev noise f2 := by
  subst h
  simp [ddpmStep]

/-- Witness for C9 at concrete arguments with two distinct fresh draws. -/
theorem c9_ddpm_terminal_deterministic_witness :
    ddpmStep 1 (1/2) 0 2 5 = ddpmStep 1 (1/2) 0 2 7 :=
  c9_ddpm_terminal_deterministic 1 (1/2) 0 2 5 7 rfl

/-- C10: whenever a mask is supplied to Diffuzz.sample the initial working
sample is the fresh noise draw from the sampler's init_x, whatever x_init
is; the supplied x_init is the starting sample only when the mask is None. -/
theorem c10_init_sample_choice (m x0 fresh : ℝ) :
    (∀ xinit : Option ℝ, initSample (some m) xinit fresh = fresh)
      ∧ initSample none (some x0) fresh = x0 := by
  constructor
  · intro xinit
    simp [initSample]
  · simp [initSample]

/-- Witness for C10 (its statement quantifies over real inputs). -/
theorem c10_init_sample_choice_witness :
    (∀ xinit : Option ℝ, initSample (some 3) xinit 7 = 7)
      ∧ initSample none (some 5) 7 = 5 :=
  c10_init_sample_choice 3 5 7

/-- C3 amended: in inpainting mode the blend happens at the start of each
iteration, before the model call, and with the opposite polarity from the
claim: the blended working sample equals the freshly re-diffused seed at
the current progress value exactly where the mask is 0, and keeps the
iteratively denoised working value where the mask is 1. -/
theorem c3_amended_blend_polarity (x xinit t tnext noiseD : ℝ)
    (model : ℝ → ℝ → ℝ) :
    (inpaintIterDDIM x xinit 0 t tnext noiseD model).1
        = (diffuse xinit t noiseD).1
      ∧ (inpaintIterDDIM x xinit 1 t tnext noiseD model).1 = x := by
  constructor <;> simp [inpaintIterDDIM]

/-- Witness for C3 amended at concrete inputs. -/
theorem c3_amended_blend_polarity_witness :
    (inpaintIterDDIM 2 3 0 (1/2) (1/4) 5 (fun a _ => a)).1
        = (diffuse 3 (1/2) 5).1
      ∧ (inpaintIterDDIM 2 3 1 (1/2) (1/4) 5 (fun a _ => a)).1 = 2 :=
  c3_amended_blend_polarity 2 3 (1/2) (1/4) 5 (fun a _ => a)

/-- C7: calling Diffuzz.sample with steps = ays raises a NameError, because
src/diffusion.py imports only torch and the ays branch evaluates math.atan;
the schedule is never built and the sampling loop never runs. -/
theorem c7_ays_raises_name_error :
    buildRRange "ays" 1 0 10
      = Except.error "NameError: name math is not defined" := rfl

/-! ## Quantitative lemmas about the default cosine schedule -/

theorem cosAngle_eq_sin (t : ℝ) :
    Real.cos ((t + 0.008) / (1 + 0.008) * Real.pi * 0.5)
      = Real.sin ((1 - t) / (1 + 0.008) * Real.pi * 0.5) := by
  rw [show (t + 0.008) / (1 + 0.008) * Real.pi * 0.5
      = Real.pi / 2 - (1 - t) / (1 + 0.008) * Real.pi * 0.5 by
    field_simp
    ring]
  exact Real.cos_pi_div_two_sub _

theorem cos_init_angle_ge :
    (0.99992 : ℝ) ≤ Real.cos ((0.008 : ℝ) / (1 + 0.008) * Real.pi * 0.5) := by
  have hveq : (0.008 : ℝ) / (1 + 0.008) * Real.pi * 0.5 = Real.pi / 252 := by
    field_simp
    ring
  rw [hveq]
  have hπu : Real.pi < 3.141593 := Real.pi_lt_d6
  have hπ0 : 0 < Real.pi := Real.pi_pos
  have hge : 1 - (Real.pi / 252) ^ 2 / 2 ≤ Real.cos (Real.pi / 252) :=
    Real.one_sub_sq_div_two_le_cos
  nlinarith

theorem initAlphaCumprod_bounds :
    0.9998 ≤ initAlphaCumprod 0.008
      ∧ initAlphaCumprod 0.008 ≤ 1 ∧ 0 < initAlphaCumprod 0.008 := by
  unfold initAlphaCumprod
  have h1 := cos_init_angle_ge
  have h2 : Real.cos ((0.008 : ℝ) / (1 + 0.008) * Real.pi * 0.5) ≤ 1 :=
    Real.cos_le_one _
  refine ⟨by nlinarith, by nlinarith, by nlinarith⟩

theorem alphaCumprodDefault_eq_lo {t : ℝ} (h1 : 199 / 200 ≤ t) (h2 : t ≤ 1) :
    alphaCumprodDefault t = 0.0001 := by
  unfold alphaCumprodDefault alphaCumprodCont
  apply clamp_eq_lo _ (by norm_num)
  unfold alphaRaw
  rw [scalerAdjust_one, cosAngle_eq_sin]
  have hπu : Real.pi < 3.141593 := Real.pi_lt_d6
  have hπl : 3.141592 < Real.pi := Real.pi_gt_d6
  have hπ0 : 0 < Real.pi := Real.pi_pos
  set u := (1 - t) / (1 + 0.008) * Real.pi * 0.5 with hu
  have hueq : u = (1 - t) * (Real.pi * (125 / 252)) := by
    rw [hu]
    field_simp
    ring
  have hu0 : 0 ≤ u := by
    rw [hu]
    apply mul_nonneg (mul_nonneg (div_nonneg (by linarith) (by norm_num)) hπ0.le)
    norm_num
  have huu : u ≤ 0.0078 := by
    have hmul : (1 - t) * Real.pi ≤ 0.005 * 3.141593 := by
      apply mul_le_mul (by linarith) hπu.le hπ0.le (by norm_num)
    rw [hueq]
    nlinarith [hmul]
  have husmall : u ≤ Real.pi := by linarith
  have hsin0 : 0 ≤ Real.sin u := Real.sin_nonneg_of_nonneg_of_le_pi hu0 husmall
  have hsin1 : Real.sin u ≤ 1 := Real.sin_le_one u
  rw [clamp_eq_self hsin0 hsin1]
  have hsinle : Real.sin u ≤ u := Real.sin_le hu0
  have hinit := initAlphaCumprod_bounds
  rw [div_le_iff hinit.2.2]
  nlinarith [hinit.1]

theorem alphaCumprodDefault_one : alphaCumprodDefault 1 = 0.0001 :=
  alphaCumprodDefault_eq_lo (by norm_num) le_rfl

theorem alphaCumprodDefault_zero : alphaCumprodDefault 0 = 0.9999 := by
  unfold alphaCumprodDefault alphaCumprodCont alphaRaw initAlphaCumprod
  rw [scalerAdjust_one]
  rw [show (0 : ℝ) + 0.008 = 0.008 by norm_num]
  have h1 := cos_init_angle_ge
  have h2 : Real.cos ((0.008 : ℝ) / (1 + 0.008) * Real.pi * 0.5) ≤ 1 :=
    Real.cos_le_one _
  rw [clamp_eq_self (by linarith) h2]
  rw [div_self (by nlinarith)]
  unfold clamp
  norm_num

theorem alphaCumprodDefault_antitone {t1 t2 : ℝ} (h0 : 0 ≤ t1) (h12 : t1 ≤ t2)
    (h2 : t2 ≤ 1) : alphaCumprodDefault t2 ≤ alphaCumprodDefault t1 := by
  unfold alphaCumprodDefault alphaCumprodCont
  apply clamp_mono
  unfold alphaRaw
  rw [scalerAdjust_one, scalerAdjust_one]
  have hπ0 : 0 < Real.pi := Real.pi_pos
  set a1 := (t1 + 0.008) / (1 + 0.008) * Real.pi * 0.5 with ha1
  set a2 := (t2 + 0.008) / (1 + 0.008) * Real.pi * 0.5 with ha2
  have hq12 : (t1 + 0.008) / (1 + 0.008) ≤ (t2 + 0.008) / (1 + 0.008) :=
    (div_le_div_right (by norm_num)).mpr (by linarith)
  have hq10 : 0 ≤ (t1 + 0.008) / (1 + 0.008) :=
    div_nonneg (by linarith) (by norm_num)
  have hq21 : (t2 + 0.008) / (1 + 0.008) ≤ 1 :=
    (div_le_one (by norm_num)).mpr (by linarith)
  have ha10 : 0 ≤ a1 := by
    rw [ha1]
    exact mul_nonneg (mul_nonneg hq10 hπ0.le) (by norm_num)
  have ha12 : a1 ≤ a2 := by
    rw [ha1, ha2]
    exact mul_le_mul_of_nonneg_right
      (mul_le_mul_of_nonneg_right hq12 hπ0.le) (by norm_num)
  have ha2pi : a2 ≤ Real.pi := by
    rw [ha2]
    nlinarith
  have hcos : Real.cos a2 ≤ Real.cos a1 :=
    Real.cos_le_cos_of_nonneg_of_le_pi ha10 ha2pi ha12
  have hc2 : 0 ≤ clamp (Real.cos a2) 0 1 := lo_le_clamp _ (by norm_num)
  have hcc : clamp (Real.cos a2) 0 1 ≤ clamp (Real.cos a1) 0 1 :=
    clamp_mono _ _ hcos
  have hsq : clamp (Real.cos a2) 0 1 ^ 2 ≤ clamp (Real.cos a1) 0 1 ^ 2 :=
    pow_le_pow_left hc2 hcc 2
  exact (div_le_div_right initAlphaCumprod_bounds.2.2).mpr hsq

theorem alphaCumprodDefault_three_quarters_gt :
    0.0001 < alphaCumprodDefault (3 / 4) := by
  have hπu : Real.pi < 3.141593 := Real.pi_lt_d6
  have hπl : 3.141592 < Real.pi := Real.pi_gt_d6
  have hraw : (0.1 : ℝ) ≤ alphaRaw 0.008 1 (3 / 4) := by
    unfold alphaRaw
    rw [scalerAdjust_one, cosAngle_eq_sin]
    set u := (1 - 3 / 4 : ℝ) / (1 + 0.008) * Real.pi * 0.5 with hu
    have hueq : u = Real.pi * (1 / 8.064) := by
      rw [hu]
      field_simp
      ring
    have hul : 0.389582 ≤ u := by rw [hueq]; nlinarith
    have huu : u ≤ 0.389584 := by rw [hueq]; nlinarith
    have hu0 : (0 : ℝ) < u := by linarith
    have hu1 : u ≤ 1 := by linarith
    have hsin := Real.sin_gt_sub_cube hu0 hu1
    have hcube : u ^ 3 ≤ 0.389584 ^ 3 :=
      pow_le_pow_left (by linarith) huu 3
    have hsinge : (0.3747 : ℝ) ≤ Real.sin u := by nlinarith
    have hsin1 : Real.sin u ≤ 1 := Real.sin_le_one u
    rw [clamp_eq_self (by linarith) hsin1]
    have hinit := initAlphaCumprod_bounds
    rw [le_div_iff hinit.2.2]
    nlinarith [hinit.2.1, sq_nonneg (Real.sin u - 0.3747)]
  unfold alphaCumprodDefault alphaCumprodCont
  calc (0.0001 : ℝ) < min 0.1 0.9999 := by norm_num
    _ ≤ min (alphaRaw 0.008 1 (3 / 4)) 0.9999 := min_le_min hraw le_rfl
    _ ≤ clamp (alphaRaw 0.008 1 (3 / 4)) 0.0001 0.9999 :=
        min_le_min (le_max_left _ _) le_rfl

/-! ## Claim theorems on the diffusion module: schedule shape and cache -/

/-- C5 counterexample: at the default parameters the schedule is not
strictly decreasing on (0,1) and not strictly inside the clamp range:
t1 = 199/200 and t2 = 997/1000 both clamp to exactly the lower bound
0.0001, so alpha_cumprod(t1) > alpha_cumprod(t2) fails and the value
equals a clamp bound. -/
theorem c5_counterexample_clamp_saturates :
    ((0 : ℝ) < 199 / 200 ∧ (199 / 200 : ℝ) < 997 / 1000
        ∧ (997 / 1000 : ℝ) < 1)
      ∧ ¬ alphaCumprodDefault (997 / 1000) < alphaCumprodDefault (199 / 200)
      ∧ alphaCumprodDefault (199 / 200) = 0.0001 := by
  have h1 : alphaCumprodDefault (199 / 200) = 0.0001 :=
    alphaCumprodDefault_eq_lo le_rfl (by norm_num)
  have h2 : alphaCumprodDefault (997 / 1000) = 0.0001 :=
    alphaCumprodDefault_eq_lo (by norm_num) (by norm_num)
  refine ⟨⟨by norm_num, by norm_num, by norm_num⟩, ?_, h1⟩
  rw [h1, h2]
  exact lt_irrefl _

/-- C5 amended: on the unit interval the default non-cached schedule is
monotone non-increasing (strictly decreasing only where the clamp is not
saturated), and every value lies within the closed clamp range
[0.0001, 0.9999]. -/
theorem c5_amended_antitone_in_clamp_range (t1 t2 : ℝ) (h0 : 0 ≤ t1)
    (h12 : t1 ≤ t2) (h2 : t2 ≤ 1) :
    alphaCumprodDefault t2 ≤ alphaCumprodDefault t1
      ∧ 0.0001 ≤ alphaCumprodDefault t1
      ∧ alphaCumprodDefault t1 ≤ 0.9999 :=
  ⟨alphaCumprodDefault_antitone h0 h12 h2, alphaCumprodDefault_mem t1⟩

/-- Witness for C5 amended at t1 = 1/4, t2 = 3/4. -/
theorem c5_amended_antitone_in_clamp_range_witness :
    alphaCumprodDefault (3 / 4) ≤ alphaCumprodDefault (1 / 4)
      ∧ 0.0001 ≤ alphaCumprodDefault (1 / 4)
      ∧ alphaCumprodDefault (1 / 4) ≤ 0.9999 :=
  c5_amended_antitone_in_clamp_range (1 / 4) (3 / 4) (by norm_num)
    (by norm_num) (by norm_num)

/-- C6 amended: a Diffuzz constructed with cache_steps = K precomputes the
schedule on the K points i/(K-1) of linspace(0,1,K), and a query with t in
[0,1] returns the precomputed value at index floor(t * (K-1)) (truncation
toward zero via .long()), not at the nearest (rounded) index. -/
theorem c6_amended_cached_lookup_truncates (K : ℕ) (t : ℝ) (hK : 2 ≤ K)
    (h0 : 0 ≤ t) (h1 : t ≤ 1) :
    alphaCumprodCached K t
      = some (alphaCumprodDefault
          ((⌊t * ((K : ℝ) - 1)⌋ : ℝ) / ((K : ℝ) - 1))) := by
  have hK1 : (1 : ℝ) ≤ (K : ℝ) - 1 := by
    have h2K : (2 : ℝ) ≤ (K : ℝ) := by exact_mod_cast hK
    linarith
  have hx0 : 0 ≤ t * ((K : ℝ) - 1) := mul_nonneg h0 (by linarith)
  have hfl0 : 0 ≤ ⌊t * ((K : ℝ) - 1)⌋ := Int.floor_nonneg.mpr hx0
  have hflub : ⌊t * ((K : ℝ) - 1)⌋ < (K : ℤ) := by
    have hle : t * ((K : ℝ) - 1) ≤ (K : ℝ) - 1 := by nlinarith
    have hfle : (⌊t * ((K : ℝ) - 1)⌋ : ℝ) ≤ (K : ℝ) - 1 :=
      le_trans (Int.floor_le _) hle
    have : (⌊t * ((K : ℝ) - 1)⌋ : ℝ) < (K : ℝ) := by linarith
    exact_mod_cast this
  unfold alphaCumprodCached pyLong tensorGet
  rw [if_pos hx0, dif_pos ⟨hfl0, hflub⟩]
  unfold cachedSteps linspace01
  congr 2
  show ((⌊t * ((K : ℝ) - 1)⌋.toNat : ℕ) : ℝ) / ((K : ℝ) - 1)
      = ((⌊t * ((K : ℝ) - 1)⌋ : ℤ) : ℝ) / ((K : ℝ) - 1)
  have hcast : ((⌊t * ((K : ℝ) - 1)⌋.toNat : ℕ) : ℝ)
      = ((⌊t * ((K : ℝ) - 1)⌋ : ℤ) : ℝ) := by
    exact_mod_cast Int.toNat_of_nonneg hfl0
  rw [hcast]

/-- Witness for C6 amended at K = 5, t = 0.9. -/
theorem c6_amended_cached_lookup_truncates_witness :
    alphaCumprodCached 5 (0.9 : ℝ)
      = some (alphaCumprodDefault
          ((⌊(0.9 : ℝ) * (((5 : ℕ) : ℝ) - 1)⌋ : ℝ) / (((5 : ℕ) : ℝ) - 1))) :=
  c6_amended_cached_lookup_truncates 5 0.9 (by norm_num) (by norm_num)
    (by norm_num)

/-- C6 counterexample: with K = 5 cached steps and t = 0.9, the nearest
precomputed index is round(0.9 * 4) = 4, but the code truncates to index 3
and returns alpha_cumprod(3/4), which differs from the value at index 4
(namely alpha_cumprod(1) = 0.0001). -/
theorem c6_counterexample_not_round :
    round ((0.9 : ℝ) * (((5 : ℕ) : ℝ) - 1)) = 4
      ∧ alphaCumprodCached 5 (0.9 : ℝ)
          ≠ some (cachedSteps 5 ⟨4, by norm_num⟩) := by
  constructor
  · rw [round_eq]
    norm_num
  · have hidx : pyLong ((0.9 : ℝ) * (((5 : ℕ) : ℝ) - 1)) = 3 := by
      unfold pyLong
      rw [if_pos (by norm_num)]
      norm_num
    unfold alphaCumprodCached tensorGet
    rw [hidx, dif_pos (by norm_num : (0 : ℤ) ≤ 3 ∧ (3 : ℤ) < ((5 : ℕ) : ℤ))]
    intro hcontra
    have heq : cachedSteps 5 ⟨(3 : ℤ).toNat, by norm_num⟩
        = cachedSteps 5 ⟨4, by norm_num⟩ :=
      Option.some_injective _ hcontra
    unfold cachedSteps linspace01 at heq
    have h34 : ((((⟨(3 : ℤ).toNat, by norm_num⟩ : Fin 5) : ℕ)) : ℝ)
        / (((5 : ℕ) : ℝ) - 1) = 3 / 4 := by
      show (((3 : ℤ).toNat : ℕ) : ℝ) / (((5 : ℕ) : ℝ) - 1) = 3 / 4
      rw [show (3 : ℤ).toNat = (3 : ℕ) from rfl]
      norm_num
    have h44 : ((((⟨4, by norm_num⟩ : Fin 5) : ℕ)) : ℝ)
        / (((5 : ℕ) : ℝ) - 1) = 1 := by
      show ((4 : ℕ) : ℝ) / (((5 : ℕ) : ℝ) - 1) = 1
      norm_num
    rw [h34, h44, alphaCumprodDefault_one] at heq
    have := alphaCumprodDefault_three_quarters_gt
    rw [heq] at this
    exact lt_irrefl _ this

/-- C3 counterexample: one inpainting iteration at a position with mask
value 1 (seed x_init = 0, drawn diffusion noise 0, model predicting 0,
progress going from t = 1 to t = 0): after the iteration the working value
is strictly positive, while a freshly re-diffused version of the seed is 0
at every progress value, so the mask = 1 region does not equal the
re-diffused seed (at the pre-step progress 1 or the post-step progress 0). -/
theorem c3_counterexample_mask_one_not_rediffused :
    (inpaintIterDDIM 1 0 1 1 0 0 (fun _ _ => 0)).2 ≠ (diffuse 0 1 0).1
      ∧ (inpaintIterDDIM 1 0 1 1 0 0 (fun _ _ => 0)).2 ≠ (diffuse 0 0 0).1 := by
  have hseed : ∀ tp : ℝ, (diffuse 0 tp 0).1 = 0 := by
    intro tp
    simp [diffuse]
  have hval : 0 < (inpaintIterDDIM 1 0 1 1 0 0 (fun _ _ => 0)).2 := by
    have h0 := sqrt_alphaCumprodDefault_pos 0
    have h1 := sqrt_alphaCumprodDefault_pos 1
    simp only [inpaintIterDDIM, diffuse, ddimStep, ddimX0]
    norm_num
    positivity
  constructor <;> rw [hseed] <;> exact ne_of_gt hval

/-! ## Lemmas about zero-initialised DiT layers -/

theorem linearMap_zero_weights {dout din : ℕ} (w : Fin dout → Fin din → ℝ)
    (b : Fin dout → ℝ) (hw : ∀ c j, w c j = 0) (hb : ∀ c, b c = 0)
    (x : Fin din → ℝ) : linearMap w b x = fun _ => 0 := by
  funext c
  simp [linearMap, hw, hb]

theorem blockForward_identity_of_zero {H dh R L : ℕ} (lnEps : ℝ)
    (bp : BlockParams H dh R) (hz : BlockZeroInit bp)
    (x : Fin L → Fin (H * dh) → ℝ) (temb : Fin (H * dh) → ℝ)
    (attn_mask : Option (Fin L → Fin L → Bool)) :
    blockForward lnEps bp x temb attn_mask = x := by
  have hada : ∀ idx : Fin (6 * (H * dh)),
      linearMap bp.ada_w bp.ada_b (fun j => silu (temb j)) idx = 0 := by
    intro idx
    simp [linearMap, hz.1, hz.2]
  funext i j
  simp [blockForward, chunkAt, hada]

theorem ditStream_eq_embed_of_zero {din H dh R L F : ℕ} (lnEps : ℝ)
    (p : DiTParams din H dh R L F) (x : Fin L → Fin din → ℝ) (t : ℝ)
    (attn_mask : Option (Fin L → Fin L → Bool))
    (hz : ∀ bp ∈ p.blocks, BlockZeroInit bp) :
    ditStream lnEps p x t attn_mask = ditEmbed p x := by
  unfold ditStream
  have hfold : ∀ (bs : List (BlockParams H dh R)),
      (∀ bp ∈ bs, BlockZeroInit bp) →
      ∀ x0 : Fin L → Fin (H * dh) → ℝ,
      bs.foldl
        (fun acc bp => blockForward lnEps bp acc
          (tEmbedderForward p.t1_w p.t1_b p.t2_w p.t2_b t) attn_mask) x0
        = x0 := by
    intro bs
    induction bs with
    | nil => intro _ x0; rfl
    | cons hd tl ih =>
      intro hbs x0
      rw [List.foldl_cons,
        blockForward_identity_of_zero lnEps hd
          (hbs hd (List.mem_cons_self _ _)) x0 _ attn_mask]
      exact ih (fun bp hbp => hbs bp (List.mem_cons_of_mem _ hbp)) x0
  exact hfold p.blocks hz _

/-! ## Claim theorems on the architecture module -/

/-- C2 amended: immediately after initialize_weights, the forward pass is
an exact identity pass-through precisely in the learn_sigma = False
configuration: the zeroed adaLN gates make every DiT block the identity on
the residual stream, the zeroed mean head makes a = 0, and the output
x_in - a equals the input. (With learn_sigma = True the output is instead
(x_in) divided by the sigma-head denominator, which is never 1; see the
counterexample.) -/
theorem c2_amended_zero_init_identity {din H dh R L F : ℕ} (lnEps : ℝ)
    (p : DiTParams din H dh R L F) (x : Fin L → Fin din → ℝ) (t : ℝ)
    (attn_mask : Option (Fin L → Fin L → Bool)) (hz : DiTZeroInit p) :
    ditForwardNoSigma lnEps p x t attn_mask = x
      ∧ ditStream lnEps p x t attn_mask = ditEmbed p x := by
  constructor
  · funext i j
    have hmean : ∀ v : Fin (H * dh) → ℝ,
        linearMap p.mean_w p.mean_b v = fun _ => 0 :=
      fun v => linearMap_zero_weights _ _ hz.2.2.2.1 hz.2.2.2.2 v
    simp only [ditForwardNoSigma, ditHeads, hmean]
    simp
  · exact ditStream_eq_embed_of_zero lnEps p x t attn_mask hz.1

/-- Witness for C2 amended: the all-zero one-block DiT maps the constant
one input to itself when learn_sigma is disabled, and its blocks leave the
residual stream unchanged. -/
theorem c2_amended_zero_init_identity_witness :
    ditForwardNoSigma (1e-6) zeroDiT onesInput 0 none = onesInput
      ∧ ditStream (1e-6) zeroDiT onesInput 0 none = ditEmbed zeroDiT onesInput :=
  c2_amended_zero_init_identity 1e-6 zeroDiT onesInput 0 none
    (by
      refine ⟨?_, fun _ _ => rfl, fun _ => rfl, fun _ _ => rfl, fun _ => rfl⟩
      intro bp hbp
      have hbp2 : bp ∈ [zeroBlock] := hbp
      rw [List.mem_singleton] at hbp2
      subst hbp2
      exact ⟨fun _ _ => rfl, fun _ => rfl⟩)

/-- C2 counterexample: with the default configuration (variance learning
enabled), a fully zero-initialised DiT (an outcome of initialize_weights,
whose zeroed layers are forced and whose random layers can draw zero) maps
the constant one input to the constant 2, not to itself: the sigma head
gives b = sigmoid(0) * (1 - 2e-3) + 1e-3 = 1/2, and (1 - 0) / (1/2) = 2. -/
theorem c2_counterexample_sigma_not_identity :
    DiTZeroInit zeroDiT
      ∧ ditForwardSigma (1e-3) (1e-6) zeroDiT onesInput 0 none
          ⟨0, Nat.one_pos⟩ ⟨0, Nat.one_pos⟩ = 2
      ∧ onesInput ⟨0, Nat.one_pos⟩ ⟨0, Nat.one_pos⟩ = 1 := by
  refine ⟨?_, ?_, rfl⟩
  · refine ⟨?_, fun _ _ => rfl, fun _ => rfl, fun _ _ => rfl, fun _ => rfl⟩
    intro bp hbp
    have hbp2 : bp ∈ [zeroBlock] := hbp
    rw [List.mem_singleton] at hbp2
    subst hbp2
    exact ⟨fun _ _ => rfl, fun _ => rfl⟩
  · have hmean : (ditHeads (1e-6) zeroDiT onesInput 0 none).1
        ⟨0, Nat.one_pos⟩ ⟨0, Nat.one_pos⟩ = 0 := by
      simp [ditHeads, linearMap, zeroDiT]
    have hsigma : (ditHeads (1e-6) zeroDiT onesInput 0 none).2
        ⟨0, Nat.one_pos⟩ ⟨0, Nat.one_pos⟩ = 0 := by
      simp [ditHeads, linearMap, zeroDiT]
    simp only [ditForwardSigma, hmean, hsigma, onesInput]
    rw [show sigmoid 0 = 1 / 2 by simp [sigmoid, Real.exp_zero]; norm_num]
    norm_num

theorem sum_fin_one_mul (f : Fin (1 * 1) → ℝ) :
    (∑ c, f c) = f ⟨0, Nat.one_pos⟩ :=
  Fin.sum_univ_one f

/-- C1: the attention mask supplied to Attention.forward is ignored (the
call on src/architecture.py line 147 passes attn_mask=None), so a position
the mask marks invalid does contribute to the attention output at a valid
position: two inputs that agree at the only valid position (position 0)
but differ at the masked-out position 1 produce different outputs at
position 0 (0 versus 1), contradicting the claimed exclusion. -/
theorem c1_masked_position_affects_output :
    xBothZero ⟨0, by norm_num⟩ = xBumpAtOne ⟨0, by norm_num⟩
      ∧ validFirstMask ⟨0, by norm_num⟩ ⟨1, by norm_num⟩ = false
      ∧ attentionForward probeAttn xBothZero (some validFirstMask)
          ⟨0, by norm_num⟩ ⟨0, Nat.one_pos⟩ = 0
      ∧ attentionForward probeAttn xBumpAtOne (some validFirstMask)
          ⟨0, by norm_num⟩ ⟨0, Nat.one_pos⟩ = 1 := by
  refine ⟨?_, rfl, ?_, ?_⟩
  · funext c
    simp [xBothZero, xBumpAtOne]
  · simp [attentionForward, sdpaHead, sdpaWeights, mergeHeads, linearMap,
      probeAttn, xBothZero, qIdx, kIdx, vIdx, headIndex, sum_fin_one_mul,
      Fin.sum_univ_two, Real.exp_zero]
  · simp [attentionForward, sdpaHead, sdpaWeights, mergeHeads, linearMap,
      probeAttn, xBumpAtOne, qIdx, kIdx, vIdx, headIndex, sum_fin_one_mul,
      Fin.sum_univ_two, Real.exp_zero]
    norm_num
    decide

end ProteinDiffusion
